import Mathlib

/-!
Verification development for the Spy Academy role-assignment and
Deception-Duel (rock-paper-scissors) game core.

The definitions below are a shallow embedding of the JavaScript source:

  * `src/js/challenges/firstImpressionsChallenge.js`
      - `determineWinner` (lines 2831-2835)
      - `showDeceptionAnalysis` score update and tie-break bonus (lines 2330-2341)
      - `checkWinConditions` (lines 1172-1192)
      - `setWinThresholds` (lines 949-962)
      - `completeTurn` (lines 2754-2758) and the `shouldVote` test (line 1639)
      - the Team Leader strategic-console overlay (lines 1295-1326)
      - actor eligibility in `renderPlayerSelection` / `bindCombinedSelection`
        (lines 1397-1436 and 1528-1542)
      - the suspicion vote tally: `showVotingInterface` (494-547),
        `recordVote` (605-621) and `analyzeVotes` (770-801)
  * `src/js/roleManager.js`
      - `generatePlayerRoles` (lines 41-127) and `shuffleArray` (129-136)

Randomness (`Math.random()` draws) is made explicit: every definition that the
source drives from the random generator takes the drawn values as parameters
(a `Bool` for a coin flip or probability test, a `List Nat` for a stream of
index draws).
-/

namespace SpyAcademy

/-- One of the three rock-paper-scissors moves (the string enum
`['rock', 'paper', 'scissors']` of the source). -/
inductive Move
  | rock
  | paper
  | scissors
deriving DecidableEq, Repr

/-- Result of one duel resolution: the string `'player' | 'ai' | 'tie'`
returned by `determineWinner`. -/
inductive RPSResult
  | player
  | ai
  | tie
deriving DecidableEq, Repr

/-- The move that `m` defeats: the lookup table
`win = { rock: 'scissors', paper: 'rock', scissors: 'paper' }` of
`determineWinner` (line 2833). -/
def winTable (m : Move) : Move :=
  match m with
  | .rock => .scissors
  | .paper => .rock
  | .scissors => .paper

/-- `determineWinner(p, a)` of firstImpressionsChallenge.js lines 2831-2835:
equal moves tie, otherwise the player wins exactly when `win[p] === a`. -/
def determineWinner (p a : Move) : RPSResult :=
  if p = a then .tie
  else if winTable p = a then .player
  else .ai

/-- The team score record `this.gameScore = { goodTeam, badTeam, ties }`
(lines 887-891). -/
structure GameScore where
  goodTeam : Nat
  badTeam : Nat
  ties : Nat
deriving DecidableEq, Repr

/-- The score update performed by `showDeceptionAnalysis` (lines 2331-2337):
a player win adds one Good point, an ai win one Bad point; a tie increments
the tie counter and, exactly when the counter becomes 3, a coin flip
(`Math.random() < 0.5`, modelled by `coin`) awards one bonus point to Good or
Bad, and exactly when it becomes 4 awards Good one unconditional bonus point. -/
def applyTurnScore (r : RPSResult) (coin : Bool) (s : GameScore) : GameScore :=
  match r with
  | .player => { s with goodTeam := s.goodTeam + 1 }
  | .ai => { s with badTeam := s.badTeam + 1 }
  | .tie =>
      let s' : GameScore := { s with ties := s.ties + 1 }
      if s'.ties = 3 then
        if coin then { s' with goodTeam := s'.goodTeam + 1 }
        else { s' with badTeam := s'.badTeam + 1 }
      else if s'.ties = 4 then { s' with goodTeam := s'.goodTeam + 1 }
      else s'

/-- The per-session win thresholds `this.winThresholds = { good, bad }`. -/
structure WinThresholds where
  good : Nat
  bad : Nat
deriving DecidableEq, Repr

/-- `setWinThresholds(playerCount)` (lines 949-962).  The source indexes a
literal object keyed by 3..8, which yields `undefined` for any other player
count, hence the `Option`. -/
def setWinThresholds (playerCount : Nat) : Option WinThresholds :=
  match playerCount with
  | 3 => some ⟨4, 3⟩
  | 4 => some ⟨5, 3⟩
  | 5 => some ⟨5, 4⟩
  | 6 => some ⟨6, 5⟩
  | 7 => some ⟨7, 5⟩
  | 8 => some ⟨8, 6⟩
  | _ => none

/-- The winning team recorded in `this.winningTeam`. -/
inductive Team
  | good
  | bad
deriving DecidableEq, Repr

/-- The duel-engine state relevant to scoring and termination:
`winThresholds`, `gameScore`, the `gameEnded` flag (line 867) and
`winningTeam`. -/
structure DuelState where
  winThresholds : WinThresholds
  gameScore : GameScore
  gameEnded : Bool
  winningTeam : Option Team
deriving DecidableEq, Repr

/-- `checkWinConditions()` (lines 1172-1192): returns `false` immediately when
`gameEnded` is already set; otherwise sets `gameEnded`/`winningTeam` and
returns `true` exactly when a team score has reached its threshold.  The pair
is (state after the call, returned boolean). -/
def checkWinConditions (st : DuelState) : DuelState × Bool :=
  if st.gameEnded then (st, false)
  else if st.winThresholds.good ≤ st.gameScore.goodTeam then
    ({ st with gameEnded := true, winningTeam := some .good }, true)
  else if st.winThresholds.bad ≤ st.gameScore.badTeam then
    ({ st with gameEnded := true, winningTeam := some .bad }, true)
  else (st, false)

/-- One completed duel turn at the scoring stage: `showDeceptionAnalysis`
(lines 2330-2341) applies the resolution result of the actor move `p` against
the hidden engine move `a` to the score and then calls `checkWinConditions`.
Once `gameEnded` is true the flow shows the final victory screen and never
starts another turn (the flag of line 867 exists to prevent further actions),
so a terminal state absorbs any further turn input unchanged. -/
def duelTurn (p a : Move) (coin : Bool) (st : DuelState) : DuelState :=
  if st.gameEnded then st
  else
    let s := applyTurnScore (determineWinner p a) coin st.gameScore
    (checkWinConditions { st with gameScore := s }).1

/-- A whole session fragment: the turns are applied in sequence, each with its
actor move, hidden engine move and tie-break coin draw. -/
def runTurns (steps : List (Move × Move × Bool)) (st : DuelState) : DuelState :=
  match steps with
  | [] => st
  | (p, a, c) :: rest => runTurns rest (duelTurn p a c st)

/-- The tie-count-3 coin-flip bonus fires on a turn exactly when the game is
live, the turn resolves to a tie, and the cumulative tie counter becomes
exactly 3 (line 2335). -/
def bonus3Fires (p a : Move) (st : DuelState) : Bool :=
  !st.gameEnded && decide (determineWinner p a = .tie)
    && decide (st.gameScore.ties + 1 = 3)

/-- The tie-count-4 unconditional Good bonus fires on a turn exactly when the
game is live, the turn resolves to a tie, and the cumulative tie counter
becomes exactly 4 (line 2336). -/
def bonus4Fires (p a : Move) (st : DuelState) : Bool :=
  !st.gameEnded && decide (determineWinner p a = .tie)
    && decide (st.gameScore.ties + 1 = 4)

/-- Number of turns of a session fragment on which the ties-3 coin-flip bonus
fires. -/
def countBonus3 (steps : List (Move × Move × Bool)) (st : DuelState) : Nat :=
  match steps with
  | [] => 0
  | (p, a, c) :: rest =>
      (if bonus3Fires p a st then 1 else 0) + countBonus3 rest (duelTurn p a c st)

/-- Number of turns of a session fragment on which the ties-4 Good bonus
fires. -/
def countBonus4 (steps : List (Move × Move × Bool)) (st : DuelState) : Nat :=
  match steps with
  | [] => 0
  | (p, a, c) :: rest =>
      (if bonus4Fires p a st then 1 else 0) + countBonus4 rest (duelTurn p a c st)

/-! ### Round tracking and the vote-intervention gate -/

/-- The turn-rotation bookkeeping of the challenge constructor
(lines 870-876): `currentTeamLeaderIndex`, `lastSelectedPlayer` and the
`completedFirstRound` flag. -/
structure RoundState where
  completedFirstRound : Bool
  currentTeamLeaderIndex : Nat
  lastSelectedPlayer : Option Nat
deriving DecidableEq, Repr

/-- The constructor initialization (lines 871-876): leader pointer 0, no
previously selected player, `completedFirstRound = false`. -/
def initRoundState : RoundState :=
  { completedFirstRound := false
    currentTeamLeaderIndex := 0
    lastSelectedPlayer := none }

/-- `completeTurn()` (lines 2754-2758): records the chosen actor as
`lastSelectedPlayer` and advances the leader pointer modulo the rotation
length.  It does not write `completedFirstRound`. -/
def completeTurn (chosen : Nat) (rotLen : Nat) (st : RoundState) : RoundState :=
  { st with
    lastSelectedPlayer := some chosen
    currentTeamLeaderIndex := (st.currentTeamLeaderIndex + 1) % rotLen }

/-- The vote-intervention activation test of `bindCombinedSelection`
(line 1639): `this.completedFirstRound && this.players.length >= 5 &&
Math.random() < 0.3`, with the random comparison modelled by `randBelow03`. -/
def shouldVote (st : RoundState) (numPlayers : Nat) (randBelow03 : Bool) : Bool :=
  st.completedFirstRound && decide (5 ≤ numPlayers) && randBelow03

/-- A sequence of completed turns applied to the rotation bookkeeping. -/
def runCompletedTurns (chosens : List Nat) (rotLen : Nat) (st : RoundState) :
    RoundState :=
  match chosens with
  | [] => st
  | c :: rest => runCompletedTurns rest rotLen (completeTurn c rotLen st)

/-! ### The Team Leader strategic console view -/

/-- The string name of a move as interpolated into the overlay markup. -/
def moveName (m : Move) : String :=
  match m with
  | .rock => "rock"
  | .paper => "paper"
  | .scissors => "scissors"

/-- The value of `move.toUpperCase()` for each of the three move strings, as
displayed on the console (line 1324). -/
def moveNameUpper (m : Move) : String :=
  match m with
  | .rock => "ROCK"
  | .paper => "PAPER"
  | .scissors => "SCISSORS"

/-- `getMoveImage(move, isPlayer)` (lines 2819-2823): the PNG path
interpolated for a move. -/
def getMoveImage (m : Move) (isPlayer : Bool) : String :=
  "rockpaperscissorspng/" ++ (if isPlayer then "player" else "AI")
    ++ moveName m ++ ".png"

/-- The engine-move-dependent data interpolated into the Team Leader
strategic-console overlay by `startRockPaperScissors` (lines 1295-1326): the
console markup contains the image `getMoveImage(this.aiMove, false)`
(line 1322) and the text `this.aiMove.toUpperCase()` (line 1324), rendered
before the actor is even chosen. -/
structure ConsoleView where
  aiMoveImg : String
  aiMoveText : String
deriving DecidableEq, Repr

/-- The strategic-console view as a function of the freshly drawn hidden
engine move `this.aiMove` (line 1298). -/
def strategicConsoleView (aiMove : Move) : ConsoleView :=
  { aiMoveImg := getMoveImage aiMove false
    aiMoveText := moveNameUpper aiMove }

/-! ### Role assignment (roleManager.js) -/

/-- A secret role: the `'Good' | 'Bad'` strings of roleManager.js. -/
inductive Role
  | Good
  | Bad
deriving DecidableEq, Repr

/-- The per-player record created by `generatePlayerRoles` (lines 51-61),
restricted to the fields the role logic touches: the stable `index`, the
assigned `role` and the optional `partnerId`. -/
structure RPlayer where
  index : Nat
  role : Role
  partnerId : Option Nat
deriving DecidableEq, Repr

/-- The `switch (playerCount)` of lines 67-92: the pair
`(badPlayerCount, badPlayersKnowEachOther)`.  The variables are initialized
to `0` / `false` (lines 64-65) and no `default` branch exists, so any other
count leaves them there. -/
def roleDistribution (playerCount : Nat) : Nat × Bool :=
  match playerCount with
  | 3 => (1, false)
  | 4 => (1, false)
  | 5 => (2, false)
  | 6 => (2, true)
  | 7 => (2, true)
  | 8 => (3, false)
  | _ => (0, false)

/-- The rejection-sampling loop of lines 95-101, driven by the finite stream
`draws` of values `Math.floor(Math.random() * playerCount)`: a draw is
appended when it is not yet in the accumulator and fewer than `bc` indices
have been collected.  The real loop keeps drawing until `bc` distinct indices
are found, so a draw stream with enough distinct values below the player
count produces exactly the loop's result. -/
def selectBadLoop (bc : Nat) (draws : List Nat) (acc : List Nat) : List Nat :=
  match draws with
  | [] => acc
  | d :: rest =>
      if acc.length < bc then
        if d ∈ acc then selectBadLoop bc rest acc
        else selectBadLoop bc rest (acc ++ [d])
      else acc

/-- The list `badPlayerIndices` produced by the loop of lines 95-101. -/
def selectBadIndices (bc : Nat) (draws : List Nat) : List Nat :=
  selectBadLoop bc draws []

/-- The initial roster of lines 51-61: every player starts with role Good and
no partner, `index` equal to its position. -/
def mkPlayers (n : Nat) : List RPlayer :=
  (List.range n).map fun i => { index := i, role := .Good, partnerId := none }

/-- Lines 104-106: `badPlayerIndices.forEach(index => players[index].role =
'Bad')`.  At this point `players[i].index = i`, so marking by position is
marking by the `index` field. -/
def assignBad (bad : List Nat) (ps : List RPlayer) : List RPlayer :=
  ps.map fun p => if p.index ∈ bad then { p with role := .Bad } else p

/-- Lines 109-112: when `badPlayersKnowEachOther` and exactly two Bad indices
exist, the two players are linked as mutual partners. -/
def assignPartners (know : Bool) (bad : List Nat) (ps : List RPlayer) :
    List RPlayer :=
  if know = true ∧ bad.length = 2 then
    let b0 := bad.getD 0 0
    let b1 := bad.getD 1 0
    ps.map fun p =>
      if p.index = b0 then { p with partnerId := some b1 }
      else if p.index = b1 then { p with partnerId := some b0 }
      else p
  else ps

/-- Swap of two positions of a list, the JS destructuring assignment
`[array[i], array[j]] = [array[j], array[i]]` (line 133).  Out-of-range
indices leave the list unchanged (the source loop only produces in-range
indices). -/
def listSwap {α : Type} (l : List α) (i j : Nat) : List α :=
  match l[i]?, l[j]? with
  | some x, some y => (l.set i y).set j x
  | _, _ => l

/-- The descending Fisher-Yates loop of `shuffleArray` (lines 130-135), with
the draws `j = Math.floor(Math.random() * (i + 1))` supplied as the stream
`js`; `i` runs from `length - 1` down to `1`. -/
def shuffleLoop {α : Type} (l : List α) (i : Nat) (js : List Nat) : List α :=
  match i, js with
  | 0, _ => l
  | _ + 1, [] => l
  | k + 1, j :: rest => shuffleLoop (listSwap l (k + 1) j) k rest

/-- `shuffleArray(array)` (lines 129-136). -/
def shuffleArray {α : Type} (l : List α) (js : List Nat) : List α :=
  shuffleLoop l (l.length - 1) js

/-- `generatePlayerRoles(playersData)` (lines 41-127) as a pure function of
the player count and the two random streams: the validation of lines 44-48
throws for counts outside 3..8 (modelled by `Except.error`), otherwise the
players are created Good, `badPlayerCount` indices are drawn Bad, partners
are linked for 6-7 player games, and the roster order is shuffled. -/
def generatePlayerRoles (n : Nat) (draws js : List Nat) :
    Except String (List RPlayer) :=
  if n < 3 || 8 < n then .error "Player count must be between 3 and 8"
  else
    let bc := (roleDistribution n).1
    let know := (roleDistribution n).2
    let bad := selectBadIndices bc draws
    .ok (shuffleArray (assignPartners know bad (assignBad bad (mkPlayers n))) js)

/-- The `this.players` state after `startRoleAssignment` (lines 26-39): the
list is reset to `[]` (line 30) before `generatePlayerRoles` runs, and the
validation throws before any player object is pushed, so on error no player
holds a role. -/
def startRoleAssignmentPlayers (n : Nat) (draws js : List Nat) : List RPlayer :=
  match generatePlayerRoles n draws js with
  | .ok ps => ps
  | .error _ => []

/-! ### Actor eligibility in the duel turn -/

/-- The available-player computation of `bindCombinedSelection`
(lines 1529-1532): all players except the team leader and except the
previously selected actor (`this.lastSelectedPlayer &&
this.lastSelectedPlayer === player`); players are identified by their index
in `this.players`.  `renderPlayerSelection` (lines 1397-1436) renders exactly
the non-leader players and marks the previous actor `disabled`, and only
options matching `.teammate-option:not(.disabled)` receive a click handler
(line 1544), so these are also exactly the clickable options. -/
def selectablePlayers (n leader : Nat) (lastSel : Option Nat) : List Nat :=
  (List.range n).filter fun p =>
    decide (p ≠ leader) && !(match lastSel with
      | some q => decide (p = q)
      | none => false)

/-- The auto-selection of lines 1534-1542: when exactly one available player
remains, it is selected without a click. -/
def autoSelected (n leader : Nat) (lastSel : Option Nat) : Option Nat :=
  match selectablePlayers n leader lastSel with
  | [p] => some p
  | _ => none

/-! ### The suspicion vote tally -/

/-- Insertion-ordered association list with JS `Map` update semantics:
`set` replaces the value of an existing key in place (keeping its position)
and appends a new key at the end. -/
def mapSet (m : List (Nat × Nat)) (k v : Nat) : List (Nat × Nat) :=
  match m with
  | [] => [(k, v)]
  | (k', v') :: rest =>
      if k' = k then (k, v) :: rest else (k', v') :: mapSet rest k v

/-- JS `Map.get`: the value stored at `k`, if any. -/
def mapGet (m : List (Nat × Nat)) (k : Nat) : Option Nat :=
  match m with
  | [] => none
  | (k', v) :: rest => if k' = k then some v else mapGet rest k

/-- The suspect options offered to a voter by `showVotingInterface`
(lines 497-500): every player index except the voter's own. -/
def voteOptions (n voter : Nat) : List Nat :=
  (List.range n).filter fun p => decide (p ≠ voter)

/-- `recordVote` (lines 605-621): `this.votes.set(votingPlayerIndex,
suspectedPlayerIndex)`. -/
def recordVote (votes : List (Nat × Nat)) (voter suspect : Nat) :
    List (Nat × Nat) :=
  mapSet votes voter suspect

/-- A vote cast through the interface: only a rendered suspect option can be
clicked (lines 586-602), so a suspect outside `voteOptions` records
nothing. -/
def castVoteUI (n : Nat) (votes : List (Nat × Nat)) (voter suspect : Nat) :
    List (Nat × Nat) :=
  if suspect ∈ voteOptions n voter then recordVote votes voter suspect
  else votes

/-- A whole voting phase: the (voter, suspect) pairs cast in order through
the interface, starting from the empty vote map (line 32). -/
def castAll (n : Nat) (pairs : List (Nat × Nat)) : List (Nat × Nat) :=
  pairs.foldl (fun vs pr => castVoteUI n vs pr.1 pr.2) []

/-- The `suspicionCounts` map built by `analyzeVotes` (lines 773-777):
iterating the votes in insertion order,
`suspicionCounts.set(s, (suspicionCounts.get(s) || 0) + 1)`. -/
def buildCounts (votes : List (Nat × Nat)) : List (Nat × Nat) :=
  votes.foldl (fun m pr => mapSet m pr.2 ((mapGet m pr.2).getD 0 + 1)) []

/-- The most-suspected scan of lines 780-787: starting from
`mostSuspected = null, maxSuspicions = 0`, each entry with a strictly greater
count replaces the current best. -/
def findMostAux (counts : List (Nat × Nat)) (acc : Option Nat × Nat) :
    Option Nat × Nat :=
  match counts with
  | [] => acc
  | pr :: rest =>
      findMostAux rest (if acc.2 < pr.2 then (some pr.1, pr.2) else acc)

/-- `analyzeVotes`'s `mostSuspected` result (lines 770-801). -/
def mostSuspected (votes : List (Nat × Nat)) : Option Nat :=
  (findMostAux (buildCounts votes) (none, 0)).1

/-- The largest count value of a counts map (0 when the map is empty), used
to characterize the scan of lines 780-787. -/
def maxCount (counts : List (Nat × Nat)) : Nat :=
  (counts.map Prod.snd).foldr max 0

/-- Suspect indices in order of first appearance during a single pass of the
votes in voter order. -/
def firstOccur (l : List Nat) : List Nat :=
  l.foldl (fun acc x => if x ∈ acc then acc else acc ++ [x]) []

/-- Modelled from the spec: the brute-force count of occurrences of a
suspect index among the cast votes. -/
def bruteCount (votes : List (Nat × Nat)) (s : Nat) : Nat :=
  (votes.map Prod.snd).count s

/-- Modelled from the spec: the most-suspected aggregate as the spec words
it — count occurrences of each suspect index, tie-break the first index
reached during a single pass in voter order. -/
def bruteMostSuspected (votes : List (Nat × Nat)) : Option Nat :=
  let suspects := firstOccur (votes.map Prod.snd)
  suspects.find? fun s =>
    suspects.all fun t => decide (bruteCount votes t ≤ bruteCount votes s)

/-! ## Helper lemmas -/

theorem checkWinConditions_gameScore (st : DuelState) :
    (checkWinConditions st).1.gameScore = st.gameScore := by
  unfold checkWinConditions
  split_ifs <;> rfl

theorem applyTurnScore_mono (r : RPSResult) (coin : Bool) (s : GameScore) :
    s.goodTeam ≤ (applyTurnScore r coin s).goodTeam ∧
    s.badTeam ≤ (applyTurnScore r coin s).badTeam ∧
    s.ties ≤ (applyTurnScore r coin s).ties := by
  cases r with
  | player => exact ⟨Nat.le_succ _, le_refl _, le_refl _⟩
  | ai => exact ⟨le_refl _, Nat.le_succ _, le_refl _⟩
  | tie =>
    simp only [applyTurnScore]
    split_ifs <;> refine ⟨?_, ?_, ?_⟩ <;>
      first | exact Nat.le_succ _ | exact le_refl _

theorem duelTurn_score_mono (p a : Move) (coin : Bool) (st : DuelState) :
    st.gameScore.goodTeam ≤ (duelTurn p a coin st).gameScore.goodTeam ∧
    st.gameScore.badTeam ≤ (duelTurn p a coin st).gameScore.badTeam ∧
    st.gameScore.ties ≤ (duelTurn p a coin st).gameScore.ties := by
  unfold duelTurn
  split_ifs with h
  · exact ⟨le_refl _, le_refl _, le_refl _⟩
  · rw [checkWinConditions_gameScore]
    exact applyTurnScore_mono _ coin st.gameScore

theorem runTurns_score_mono (steps : List (Move × Move × Bool)) (st : DuelState) :
    st.gameScore.goodTeam ≤ (runTurns steps st).gameScore.goodTeam ∧
    st.gameScore.badTeam ≤ (runTurns steps st).gameScore.badTeam ∧
    st.gameScore.ties ≤ (runTurns steps st).gameScore.ties := by
  induction steps generalizing st with
  | nil => exact ⟨le_refl _, le_refl _, le_refl _⟩
  | cons step rest ih =>
    obtain ⟨p, a, c⟩ := step
    have h1 := duelTurn_score_mono p a c st
    have h2 := ih (duelTurn p a c st)
    exact ⟨h1.1.trans h2.1, h1.2.1.trans h2.2.1, h1.2.2.trans h2.2.2⟩

theorem duelTurn_of_ended (p a : Move) (coin : Bool) (st : DuelState)
    (h : st.gameEnded = true) : duelTurn p a coin st = st := by
  simp [duelTurn, h]

theorem duelTurn_ties (p a : Move) (coin : Bool) (st : DuelState)
    (h : st.gameEnded = false) :
    (duelTurn p a coin st).gameScore.ties =
      if determineWinner p a = .tie then st.gameScore.ties + 1
      else st.gameScore.ties := by
  simp only [duelTurn, h, Bool.false_eq_true, if_false, checkWinConditions_gameScore]
  cases hw : determineWinner p a <;> simp only [applyTurnScore] <;>
    split_ifs <;> simp_all

theorem countBonus3_of_three_le (steps : List (Move × Move × Bool))
    (st : DuelState) (h : 3 ≤ st.gameScore.ties) : countBonus3 steps st = 0 := by
  induction steps generalizing st with
  | nil => rfl
  | cons step rest ih =>
    obtain ⟨p, a, c⟩ := step
    have hfire : bonus3Fires p a st = false := by
      simp only [bonus3Fires]
      have : st.gameScore.ties + 1 ≠ 3 := by omega
      simp [this]
    have hrec := ih (duelTurn p a c st) ((duelTurn_score_mono p a c st).2.2.trans' h)
    simp [countBonus3, hfire, hrec]

theorem countBonus4_of_four_le (steps : List (Move × Move × Bool))
    (st : DuelState) (h : 4 ≤ st.gameScore.ties) : countBonus4 steps st = 0 := by
  induction steps generalizing st with
  | nil => rfl
  | cons step rest ih =>
    obtain ⟨p, a, c⟩ := step
    have hfire : bonus4Fires p a st = false := by
      simp only [bonus4Fires]
      have : st.gameScore.ties + 1 ≠ 4 := by omega
      simp [this]
    have hrec := ih (duelTurn p a c st) ((duelTurn_score_mono p a c st).2.2.trans' h)
    simp [countBonus4, hfire, hrec]

theorem countBonus3_eq (steps : List (Move × Move × Bool)) (st : DuelState)
    (h : st.gameScore.ties ≤ 2) :
    countBonus3 steps st =
      if 3 ≤ (runTurns steps st).gameScore.ties then 1 else 0 := by
  induction steps generalizing st with
  | nil =>
    have : ¬ 3 ≤ st.gameScore.ties := by omega
    simp [countBonus3, runTurns, this]
  | cons step rest ih =>
    obtain ⟨p, a, c⟩ := step
    by_cases he : st.gameEnded = true
    · have hfire : bonus3Fires p a st = false := by simp [bonus3Fires, he]
      have hrec := ih st h
      simp [countBonus3, runTurns, hfire, duelTurn_of_ended p a c st he, hrec]
    · rw [Bool.not_eq_true] at he
      by_cases hw : determineWinner p a = .tie
      · by_cases h2 : st.gameScore.ties = 2
        · have hfire : bonus3Fires p a st = true := by
            simp [bonus3Fires, he, hw, h2]
          have hties : (duelTurn p a c st).gameScore.ties = 3 := by
            rw [duelTurn_ties p a c st he, if_pos hw, h2]
          have hz := countBonus3_of_three_le rest (duelTurn p a c st)
            (le_of_eq hties.symm)
          have hmono := (runTurns_score_mono rest (duelTurn p a c st)).2.2
          rw [hties] at hmono
          simp [countBonus3, runTurns, hfire, hz, hmono]
        · have hfire : bonus3Fires p a st = false := by
            have : st.gameScore.ties + 1 ≠ 3 := by omega
            simp [bonus3Fires, this]
          have hties : (duelTurn p a c st).gameScore.ties =
              st.gameScore.ties + 1 := by
            rw [duelTurn_ties p a c st he, if_pos hw]
          have hrec := ih (duelTurn p a c st) (by omega)
          simp [countBonus3, runTurns, hfire, hrec]
      · have hfire : bonus3Fires p a st = false := by simp [bonus3Fires, hw]
        have hties : (duelTurn p a c st).gameScore.ties = st.gameScore.ties := by
          rw [duelTurn_ties p a c st he, if_neg hw]
        have hrec := ih (duelTurn p a c st) (by omega)
        simp [countBonus3, runTurns, hfire, hrec]

theorem countBonus4_eq (steps : List (Move × Move × Bool)) (st : DuelState)
    (h : st.gameScore.ties ≤ 3) :
    countBonus4 steps st =
      if 4 ≤ (runTurns steps st).gameScore.ties then 1 else 0 := by
  induction steps generalizing st with
  | nil =>
    have : ¬ 4 ≤ st.gameScore.ties := by omega
    simp [countBonus4, runTurns, this]
  | cons step rest ih =>
    obtain ⟨p, a, c⟩ := step
    by_cases he : st.gameEnded = true
    · have hfire : bonus4Fires p a st = false := by simp [bonus4Fires, he]
      have hrec := ih st h
      simp [countBonus4, runTurns, hfire, duelTurn_of_ended p a c st he, hrec]
    · rw [Bool.not_eq_true] at he
      by_cases hw : determineWinner p a = .tie
      · by_cases h3 : st.gameScore.ties = 3
        · have hfire : bonus4Fires p a st = true := by
            simp [bonus4Fires, he, hw, h3]
          have hties : (duelTurn p a c st).gameScore.ties = 4 := by
            rw [duelTurn_ties p a c st he, if_pos hw, h3]
          have hz := countBonus4_of_four_le rest (duelTurn p a c st)
            (le_of_eq hties.symm)
          have hmono := (runTurns_score_mono rest (duelTurn p a c st)).2.2
          rw [hties] at hmono
          simp [countBonus4, runTurns, hfire, hz, hmono]
        · have hfire : bonus4Fires p a st = false := by
            have : st.gameScore.ties + 1 ≠ 4 := by omega
            simp [bonus4Fires, this]
          have hties : (duelTurn p a c st).gameScore.ties =
              st.gameScore.ties + 1 := by
            rw [duelTurn_ties p a c st he, if_pos hw]
          have hrec := ih (duelTurn p a c st) (by omega)
          simp [countBonus4, runTurns, hfire, hrec]
      · have hfire : bonus4Fires p a st = false := by simp [bonus4Fires, hw]
        have hties : (duelTurn p a c st).gameScore.ties = st.gameScore.ties := by
          rw [duelTurn_ties p a c st he, if_neg hw]
        have hrec := ih (duelTurn p a c st) (by omega)
        simp [countBonus4, runTurns, hfire, hrec]

/-! ## Claim theorems -/

/-- C1 counterexample: the Team Leader strategic console — a view rendered in
step 2, before any reveal — depends on and exposes the hidden engine move.
For the concrete hidden moves rock and paper the console views differ, and
the rock console displays the text "ROCK". -/
theorem C1_counterexample :
    strategicConsoleView .rock ≠ strategicConsoleView .paper ∧
    (strategicConsoleView .rock).aiMoveText = "ROCK" := by
  constructor
  · intro h
    have := congrArg ConsoleView.aiMoveText h
    simp [strategicConsoleView, moveNameUpper] at this
  · rfl

/-- C1 (amended): the hidden engine move drawn in step 2 is displayed on the
Team Leader strategic console before the reveal: the console view determines
the engine move, so distinct hidden moves always produce distinct console
views (the view both depends on and exposes the secret move). -/
theorem C1_console_view_determines_engine_move (m1 m2 : Move) (h : m1 ≠ m2) :
    strategicConsoleView m1 ≠ strategicConsoleView m2 := by
  cases m1 <;> cases m2 <;> first
    | exact absurd rfl h
    | (intro hv
       have := congrArg ConsoleView.aiMoveText hv
       simp [strategicConsoleView, moveNameUpper] at this)

/-- Witness for C1: the concrete hidden moves rock and scissors produce
distinct strategic-console views. -/
theorem C1_console_view_determines_engine_move_witness :
    strategicConsoleView .rock ≠ strategicConsoleView .scissors :=
  C1_console_view_determines_engine_move .rock .scissors (by decide)

/-- C2 (code bug): `completedFirstRound` is initialized `false` and never
assigned anywhere in the source, and `completeTurn` does not set it, so along
any sequence of completed turns the flag stays `false` and the
vote-intervention test `shouldVote` of line 1639 evaluates to `false` for
every player count and every random draw — the intervention phase can never
activate, contrary to the claim (and to the source comments of lines
875-876 and 893). -/
theorem C2_intervention_never_activates :
    ∀ (chosens : List Nat) (rotLen numPlayers : Nat) (randBelow03 : Bool),
      (runCompletedTurns chosens rotLen initRoundState).completedFirstRound
        = false ∧
      shouldVote (runCompletedTurns chosens rotLen initRoundState) numPlayers
        randBelow03 = false := by
  have key : ∀ (chosens : List Nat) (rotLen : Nat) (st : RoundState),
      st.completedFirstRound = false →
      (runCompletedTurns chosens rotLen st).completedFirstRound = false := by
    intro chosens
    induction chosens with
    | nil => intro _ _ h; exact h
    | cons c rest ih => intro rotLen st h; exact ih rotLen _ h
  intro chosens rotLen numPlayers r
  have h := key chosens rotLen initRoundState rfl
  refine ⟨h, ?_⟩
  simp [shouldVote, h]

/-- C3: across a duel session the counters `goodTeam`, `badTeam`, `ties` are
non-decreasing (per turn and over any turn sequence); from a live state a
turn terminates the engine exactly when the post-resolution score meets
`winThresholds.good` or `winThresholds.bad`; the thresholds are fixed from
the player count by the table 3→(4,3), 4→(5,3), 5→(5,4), 6→(6,5), 7→(7,5),
8→(8,6); and once terminal, further turn input is rejected and nothing (in
particular no score) changes. -/
theorem C3_score_monotone_thresholds_termination (p a : Move) (coin : Bool)
    (st : DuelState) :
    (st.gameScore.goodTeam ≤ (duelTurn p a coin st).gameScore.goodTeam ∧
     st.gameScore.badTeam ≤ (duelTurn p a coin st).gameScore.badTeam ∧
     st.gameScore.ties ≤ (duelTurn p a coin st).gameScore.ties) ∧
    (∀ steps : List (Move × Move × Bool),
      st.gameScore.goodTeam ≤ (runTurns steps st).gameScore.goodTeam ∧
      st.gameScore.badTeam ≤ (runTurns steps st).gameScore.badTeam ∧
      st.gameScore.ties ≤ (runTurns steps st).gameScore.ties) ∧
    (st.gameEnded = false →
      ((duelTurn p a coin st).gameEnded = true ↔
        st.winThresholds.good ≤
          (applyTurnScore (determineWinner p a) coin st.gameScore).goodTeam ∨
        st.winThresholds.bad ≤
          (applyTurnScore (determineWinner p a) coin st.gameScore).badTeam)) ∧
    (st.gameEnded = true → duelTurn p a coin st = st) ∧
    (setWinThresholds 3 = some ⟨4, 3⟩ ∧ setWinThresholds 4 = some ⟨5, 3⟩ ∧
     setWinThresholds 5 = some ⟨5, 4⟩ ∧ setWinThresholds 6 = some ⟨6, 5⟩ ∧
     setWinThresholds 7 = some ⟨7, 5⟩ ∧ setWinThresholds 8 = some ⟨8, 6⟩) := by
  refine ⟨duelTurn_score_mono p a coin st, fun steps => runTurns_score_mono steps st,
    ?_, duelTurn_of_ended p a coin st, by decide⟩
  intro he
  simp only [duelTurn, he, Bool.false_eq_true, if_false, checkWinConditions]
  split_ifs with h1 h2 <;> simp_all

/-- Witness for C3: with 3-player thresholds (good 4, bad 3), a live state at
good score 3 ends the game on a turn the actor wins. -/
theorem C3_score_monotone_thresholds_termination_witness :
    (duelTurn .rock .scissors true
      ⟨⟨4, 3⟩, ⟨3, 0, 0⟩, false, none⟩).gameEnded = true :=
  ((C3_score_monotone_thresholds_termination .rock .scissors true
    ⟨⟨4, 3⟩, ⟨3, 0, 0⟩, false, none⟩).2.2.1 rfl).mpr (Or.inl (by decide))

/-- C4 counterexample: at the concrete state with tie counter 2, a tie turn
(rock against rock, coin flip heads) changes a team score — the Good team
goes from 0 to 1 — so a tie does not always leave team scores unchanged. -/
theorem C4_counterexample :
    determineWinner .rock .rock = .tie ∧
    (applyTurnScore (determineWinner .rock .rock) true
      ⟨0, 0, 2⟩).goodTeam = 1 ∧
    (⟨0, 0, 2⟩ : GameScore).goodTeam = 0 := by decide

/-- C4 (amended): for all 9 move combinations, equal moves tie and otherwise
rock beats scissors, scissors beats paper, paper beats rock; an actor win
adds exactly one Good point, an engine win exactly one Bad point, and a tie
increments only the tie counter with no team score change except when the
tie counter thereby reaches exactly 3 or 4, where the tie-break bonus rule
applies. -/
theorem C4_resolution_table (p a : Move) (coin : Bool) (s : GameScore) :
    (determineWinner p a = .tie ↔ p = a) ∧
    determineWinner .rock .scissors = .player ∧
    determineWinner .scissors .paper = .player ∧
    determineWinner .paper .rock = .player ∧
    determineWinner .scissors .rock = .ai ∧
    determineWinner .paper .scissors = .ai ∧
    determineWinner .rock .paper = .ai ∧
    (determineWinner p a = .player →
      applyTurnScore (determineWinner p a) coin s =
        { goodTeam := s.goodTeam + 1, badTeam := s.badTeam, ties := s.ties }) ∧
    (determineWinner p a = .ai →
      applyTurnScore (determineWinner p a) coin s =
        { goodTeam := s.goodTeam, badTeam := s.badTeam + 1, ties := s.ties }) ∧
    (determineWinner p a = .tie → s.ties + 1 ≠ 3 → s.ties + 1 ≠ 4 →
      applyTurnScore (determineWinner p a) coin s =
        { goodTeam := s.goodTeam, badTeam := s.badTeam, ties := s.ties + 1 }) := by
  refine ⟨?_, by decide, by decide, by decide, by decide, by decide, by decide,
    ?_, ?_, ?_⟩
  · cases p <;> cases a <;> simp [determineWinner, winTable]
  · intro h; rw [h]; rfl
  · intro h; rw [h]; rfl
  · intro h h3 h4; rw [h]; simp [applyTurnScore, h3, h4]

/-- Witness for C4: a first tie (rock against rock, tie counter 0 → 1) only
increments the tie counter. -/
theorem C4_resolution_table_witness :
    applyTurnScore (determineWinner .rock .rock) true ⟨0, 0, 0⟩ =
      { goodTeam := 0, badTeam := 0, ties := 1 } :=
  (C4_resolution_table .rock .rock true
    ⟨0, 0, 0⟩).2.2.2.2.2.2.2.2.2 (by decide) (by decide) (by decide)

/-- C5: on a live turn that resolves to a tie, when the cumulative tie
counter reaches exactly 3 a coin flip awards one bonus point to the Good or
the Bad team; when it reaches exactly 4 the Good team is unconditionally
awarded one bonus point; at any other tie-count value a tie changes no team
score; and over any session started with a tie counter at most 2 (resp. 3)
each bonus fires exactly once if the counter ever reaches 3 (resp. 4) and
never otherwise — in particular never again at ties 7 or 8. -/
theorem C5_tie_break_bonus (p a : Move) (coin : Bool) (st : DuelState)
    (steps : List (Move × Move × Bool)) :
    (st.gameEnded = false → determineWinner p a = .tie →
      st.gameScore.ties = 2 →
      (duelTurn p a coin st).gameScore =
        if coin then
          { goodTeam := st.gameScore.goodTeam + 1,
            badTeam := st.gameScore.badTeam, ties := st.gameScore.ties + 1 }
        else
          { goodTeam := st.gameScore.goodTeam,
            badTeam := st.gameScore.badTeam + 1,
            ties := st.gameScore.ties + 1 }) ∧
    (st.gameEnded = false → determineWinner p a = .tie →
      st.gameScore.ties = 3 →
      (duelTurn p a coin st).gameScore =
        { goodTeam := st.gameScore.goodTeam + 1,
          badTeam := st.gameScore.badTeam, ties := st.gameScore.ties + 1 }) ∧
    (st.gameEnded = false → determineWinner p a = .tie →
      st.gameScore.ties + 1 ≠ 3 → st.gameScore.ties + 1 ≠ 4 →
      (duelTurn p a coin st).gameScore =
        { goodTeam := st.gameScore.goodTeam,
          badTeam := st.gameScore.badTeam, ties := st.gameScore.ties + 1 }) ∧
    (st.gameScore.ties ≤ 2 →
      countBonus3 steps st =
        if 3 ≤ (runTurns steps st).gameScore.ties then 1 else 0) ∧
    (st.gameScore.ties ≤ 3 →
      countBonus4 steps st =
        if 4 ≤ (runTurns steps st).gameScore.ties then 1 else 0) := by
  refine ⟨?_, ?_, ?_, countBonus3_eq steps st, countBonus4_eq steps st⟩
  · intro he hw h2
    simp only [duelTurn, he, Bool.false_eq_true, if_false,
      checkWinConditions_gameScore, hw]
    simp [applyTurnScore, h2]
  · intro he hw h3
    simp only [duelTurn, he, Bool.false_eq_true, if_false,
      checkWinConditions_gameScore, hw]
    simp [applyTurnScore, h3]
  · intro he hw h3 h4
    simp only [duelTurn, he, Bool.false_eq_true, if_false,
      checkWinConditions_gameScore, hw]
    simp [applyTurnScore, h3, h4]

/-- Witness for C5: a live tie turn at tie counter 2 with the coin landing
heads awards the Good team the coin-flip bonus. -/
theorem C5_tie_break_bonus_witness :
    (duelTurn .rock .rock true
      ⟨⟨4, 3⟩, ⟨0, 0, 2⟩, false, none⟩).gameScore = ⟨1, 0, 3⟩ := by
  have h := (C5_tie_break_bonus .rock .rock true
    ⟨⟨4, 3⟩, ⟨0, 0, 2⟩, false, none⟩ []).1 rfl (by decide) rfl
  simpa using h

/-- C10: after the duel has ended (`gameEnded = true`), every further call to
`checkWinConditions` returns `false` and leaves the whole state — including
the recorded winner — unchanged, even while a team score still meets its
threshold. -/
theorem C10_check_win_terminal (st : DuelState) (h : st.gameEnded = true) :
    checkWinConditions st = (st, false) := by
  simp [checkWinConditions, h]

/-- Witness for C10: an ended 3-player game whose Good score 4 still meets
the threshold 4 reports `false` and keeps the recorded winner. -/
theorem C10_check_win_terminal_witness :
    checkWinConditions ⟨⟨4, 3⟩, ⟨4, 0, 0⟩, true, some .good⟩ =
      (⟨⟨4, 3⟩, ⟨4, 0, 0⟩, true, some .good⟩, false) :=
  C10_check_win_terminal ⟨⟨4, 3⟩, ⟨4, 0, 0⟩, true, some .good⟩ rfl

/-- C8: when the Team Leader chooses an actor, the leader is never among the
selectable options, the immediately-prior actor is never selectable (in
particular whenever another eligible player exists — and with a valid leader
and at least 3 players another eligible player always exists), and when
exactly one eligible player remains that player is auto-selected. -/
theorem C8_actor_selection (n leader : Nat) (lastSel : Option Nat)
    (hn : 3 ≤ n) (_hl : leader < n) :
    leader ∉ selectablePlayers n leader lastSel ∧
    (∀ q, lastSel = some q → q ∉ selectablePlayers n leader lastSel) ∧
    selectablePlayers n leader lastSel ≠ [] ∧
    (∀ p, selectablePlayers n leader lastSel = [p] →
      autoSelected n leader lastSel = some p) := by
  refine ⟨?_, ?_, ?_, ?_⟩
  · intro h
    simp [selectablePlayers] at h
  · intro q hq h
    subst hq
    simp [selectablePlayers] at h
  · have hex : ∃ i, i < n ∧ i ≠ leader ∧ ∀ q, lastSel = some q → i ≠ q := by
      rcases lastSel with _ | q
      · by_cases h0 : leader = 0
        · exact ⟨1, by omega, by omega, by simp⟩
        · exact ⟨0, by omega, fun hh => h0 hh.symm, by simp⟩
      · by_cases e0 : 0 = leader ∨ 0 = q
        · by_cases e1 : 1 = leader ∨ 1 = q
          · refine ⟨2, by omega, by omega, ?_⟩
            intro q' hq'
            injection hq' with hq''
            omega
          · refine ⟨1, by omega, by omega, ?_⟩
            intro q' hq'
            injection hq' with hq''
            omega
        · refine ⟨0, by omega, by omega, ?_⟩
          intro q' hq'
          injection hq' with hq''
          omega
    obtain ⟨i, hi1, hi2, hi3⟩ := hex
    intro hemp
    have hmem : i ∈ selectablePlayers n leader lastSel := by
      rcases lastSel with _ | q
      · simp [selectablePlayers, hi1, hi2]
      · simp [selectablePlayers, hi1, hi2, hi3 q rfl]
    rw [hemp] at hmem
    exact absurd hmem (List.not_mem_nil i)
  · intro p hp
    simp [autoSelected, hp]

/-- Witness for C8: with 3 players, leader 0 and prior actor 1, player 2 is
the single eligible player and is auto-selected. -/
theorem C8_actor_selection_witness :
    autoSelected 3 0 (some 1) = some 2 :=
  (C8_actor_selection 3 0 (some 1) (by decide) (by decide)).2.2.2 2 (by decide)

/-! ### Lemmas for the suspicion tally -/

theorem mapSet_keys (m : List (Nat × Nat)) (k v : Nat) :
    (mapSet m k v).map Prod.fst =
      if k ∈ m.map Prod.fst then m.map Prod.fst
      else m.map Prod.fst ++ [k] := by
  induction m with
  | nil => simp [mapSet]
  | cons pr rest ih =>
    obtain ⟨k', v'⟩ := pr
    by_cases hk : k' = k
    · subst hk
      simp [mapSet]
    · have hk' : ¬ k = k' := fun h => hk h.symm
      simp only [mapSet, if_neg hk, List.map_cons, List.mem_cons, hk',
        false_or, ih]
      split_ifs <;> simp

theorem mapSet_length (m : List (Nat × Nat)) (k v : Nat) :
    (mapSet m k v).length =
      if k ∈ m.map Prod.fst then m.length else m.length + 1 := by
  have h := congrArg List.length (mapSet_keys m k v)
  simp only [List.length_map] at h
  rw [h]
  split_ifs <;> simp

theorem castAll_aux_length (n : Nat) (pairs : List (Nat × Nat)) :
    ∀ m : List (Nat × Nat),
      (∀ pr ∈ pairs, pr.2 ∈ voteOptions n pr.1) →
      (∀ pr ∈ pairs, pr.1 ∉ m.map Prod.fst) →
      (pairs.map Prod.fst).Nodup →
      (pairs.foldl (fun vs pr => castVoteUI n vs pr.1 pr.2) m).length
          = m.length + pairs.length ∧
      (pairs.foldl (fun vs pr => castVoteUI n vs pr.1 pr.2) m).map Prod.fst
          = m.map Prod.fst ++ pairs.map Prod.fst := by
  induction pairs with
  | nil => intro m _ _ _; simp
  | cons pr rest ih =>
    intro m hvalid hfresh hnodup
    obtain ⟨v, s⟩ := pr
    have hv : s ∈ voteOptions n v := hvalid (v, s) (List.mem_cons_self _ _)
    have hm : v ∉ m.map Prod.fst := hfresh (v, s) (List.mem_cons_self _ _)
    have hstep : castVoteUI n m v s = mapSet m v s := by
      simp [castVoteUI, recordVote, hv]
    have hkeys : (mapSet m v s).map Prod.fst = m.map Prod.fst ++ [v] := by
      rw [mapSet_keys, if_neg hm]
    have hlen : (mapSet m v s).length = m.length + 1 := by
      rw [mapSet_length, if_neg hm]
    have hnodup' : (rest.map Prod.fst).Nodup := by
      simp only [List.map_cons, List.nodup_cons] at hnodup
      exact hnodup.2
    have hvfresh : v ∉ rest.map Prod.fst := by
      simp only [List.map_cons, List.nodup_cons] at hnodup
      exact hnodup.1
    have hfresh' : ∀ qr ∈ rest, qr.1 ∉ (mapSet m v s).map Prod.fst := by
      intro qr hqr
      rw [hkeys]
      simp only [List.mem_append, List.mem_singleton]
      rintro (h | h)
      · exact hfresh qr (List.mem_cons_of_mem _ hqr) h
      · exact hvfresh (h ▸ List.mem_map_of_mem Prod.fst hqr)
    have hvalid' : ∀ qr ∈ rest, qr.2 ∈ voteOptions n qr.1 := fun qr hqr =>
      hvalid qr (List.mem_cons_of_mem _ hqr)
    have := ih (mapSet m v s) hvalid' hfresh' hnodup'
    constructor
    · simp only [List.foldl_cons, hstep, this.1, hlen, List.length_cons]
      omega
    · simp only [List.foldl_cons, hstep, this.2, hkeys, List.map_cons]
      simp
                  
theorem mapGet_mapSet (m : List (Nat × Nat)) (k v k' : Nat) :
    mapGet (mapSet m k v) k' = if k = k' then some v else mapGet m k' := by
  induction m with
  | nil =>
    simp only [mapSet, mapGet]
  | cons pr rest ih =>
    obtain ⟨k0, v0⟩ := pr
    by_cases h0 : k0 = k
    · subst h0
      by_cases h1 : k0 = k'
      · subst h1; simp [mapSet, mapGet]
      · simp [mapSet, mapGet, h1]
    · by_cases h1 : k0 = k'
      · subst h1
        have : ¬ k = k0 := fun h => h0 h.symm
        simp [mapSet, mapGet, h0, this]
      · simp [mapSet, mapGet, h0, h1, ih]

theorem buildCounts_val_aux (votes : List (Nat × Nat)) :
    ∀ (m : List (Nat × Nat)) (k : Nat),
      mapGet (votes.foldl
          (fun m pr => mapSet m pr.2 ((mapGet m pr.2).getD 0 + 1)) m) k =
        if k ∈ votes.map Prod.snd ∨ (mapGet m k).isSome then
          some ((mapGet m k).getD 0 + (votes.map Prod.snd).count k)
        else none := by
  induction votes with
  | nil =>
    intro m k
    cases h : mapGet m k <;> simp [h]
  | cons pr rest ih =>
    intro m k
    obtain ⟨v, s⟩ := pr
    have hstep := ih (mapSet m s ((mapGet m s).getD 0 + 1)) k
    by_cases hks : s = k
    · subst hks
      rw [List.foldl_cons, hstep, mapGet_mapSet]
      simp only [if_pos rfl, Option.isSome_some, or_true, if_true,
        Option.getD_some, List.map_cons, List.count_cons, List.mem_cons,
        true_or, beq_self_eq_true, Option.some.injEq]
      omega
    · have hks' : ¬ (s = k) := hks
      rw [List.foldl_cons, hstep, mapGet_mapSet]
      simp only [if_neg hks']
      have hcnt : ((v, s) :: rest).map Prod.snd = s :: rest.map Prod.snd := rfl
      rw [hcnt]
      have hkmem : k ∈ s :: rest.map Prod.snd ↔ k ∈ rest.map Prod.snd := by
        simp only [List.mem_cons]
        constructor
        · rintro (h | h)
          · exact absurd h.symm hks'
          · exact h
        · exact Or.inr
      have hkcount : (s :: rest.map Prod.snd).count k
          = (rest.map Prod.snd).count k := by
        rw [List.count_cons]
        simp [hks']
      rw [hkcount]
      by_cases hmem : k ∈ rest.map Prod.snd ∨ (mapGet m k).isSome
      · rw [if_pos hmem, if_pos (by rw [hkmem]; exact hmem)]
      · rw [if_neg hmem, if_neg (by rw [hkmem]; exact hmem)]

theorem buildCounts_val (votes : List (Nat × Nat)) (k : Nat) :
    mapGet (buildCounts votes) k =
      if k ∈ votes.map Prod.snd then some ((votes.map Prod.snd).count k)
      else none := by
  have h := buildCounts_val_aux votes [] k
  simp only [mapGet, Option.isSome_none, Bool.false_eq_true, or_false,
    Option.getD_none, Nat.zero_add] at h
  exact h

theorem firstOccurAux_mem (l : List Nat) :
    ∀ (acc : List Nat) (x : Nat),
      x ∈ l.foldl (fun acc x => if x ∈ acc then acc else acc ++ [x]) acc ↔
        x ∈ acc ∨ x ∈ l := by
  induction l with
  | nil => intro acc x; simp
  | cons y rest ih =>
    intro acc x
    rw [List.foldl_cons]
    by_cases hy : y ∈ acc
    · rw [if_pos hy, ih]
      constructor
      · rintro (h | h)
        · exact Or.inl h
        · exact Or.inr (List.mem_cons_of_mem _ h)
      · rintro (h | h)
        · exact Or.inl h
        · rcases List.mem_cons.mp h with h' | h'
          · exact Or.inl (h' ▸ hy)
          · exact Or.inr h'
    · rw [if_neg hy, ih]
      simp only [List.mem_append, List.mem_singleton, List.mem_cons]
      tauto

theorem firstOccurAux_nodup (l : List Nat) :
    ∀ acc : List Nat, acc.Nodup →
      (l.foldl (fun acc x => if x ∈ acc then acc else acc ++ [x]) acc).Nodup := by
  induction l with
  | nil => intro acc h; exact h
  | cons y rest ih =>
    intro acc h
    rw [List.foldl_cons]
    by_cases hy : y ∈ acc
    · rw [if_pos hy]; exact ih acc h
    · rw [if_neg hy]
      refine ih _ ?_
      simp [List.nodup_append, h, hy]

theorem mem_firstOccur (l : List Nat) (x : Nat) :
    x ∈ firstOccur l ↔ x ∈ l := by
  rw [firstOccur, firstOccurAux_mem]
  simp

theorem firstOccur_nodup (l : List Nat) : (firstOccur l).Nodup :=
  firstOccurAux_nodup l [] List.nodup_nil

theorem buildCounts_keys (votes : List (Nat × Nat)) :
    (buildCounts votes).map Prod.fst = firstOccur (votes.map Prod.snd) := by
  suffices h : ∀ m : List (Nat × Nat),
      (votes.foldl
        (fun m pr => mapSet m pr.2 ((mapGet m pr.2).getD 0 + 1)) m).map Prod.fst
      = (votes.map Prod.snd).foldl
          (fun acc x => if x ∈ acc then acc else acc ++ [x]) (m.map Prod.fst) by
    exact h []
  induction votes with
  | nil => intro m; rfl
  | cons pr rest ih =>
    intro m
    obtain ⟨v, s⟩ := pr
    rw [List.foldl_cons, ih, mapSet_keys]
    rfl

theorem mapGet_some_of_mem (m : List (Nat × Nat))
    (hnd : (m.map Prod.fst).Nodup) :
    ∀ pr ∈ m, mapGet m pr.1 = some pr.2 := by
  induction m with
  | nil => intro pr h; exact absurd h (List.not_mem_nil pr)
  | cons qr rest ih =>
    intro pr hpr
    obtain ⟨k0, v0⟩ := qr
    simp only [List.map_cons, List.nodup_cons] at hnd
    rcases List.mem_cons.mp hpr with h | h
    · subst h
      simp [mapGet]
    · have hk : ¬ (k0 = pr.1) := by
        intro he
        exact hnd.1 (he ▸ List.mem_map_of_mem Prod.fst h)
      simp only [mapGet, if_neg hk]
      exact ih hnd.2 pr h

theorem le_foldr_max (l : List Nat) (x : Nat) (h : x ∈ l) :
    x ≤ l.foldr max 0 := by
  induction l with
  | nil => exact absurd h (List.not_mem_nil x)
  | cons y rest ih =>
    rcases List.mem_cons.mp h with h' | h'
    · subst h'; simp only [List.foldr_cons]; omega
    · have := ih h'
      simp only [List.foldr_cons]
      omega

theorem foldr_max_le_iff (l : List Nat) (c : Nat) :
    l.foldr max 0 ≤ c ↔ ∀ x ∈ l, x ≤ c := by
  induction l with
  | nil => simp
  | cons y rest ih =>
    simp only [List.foldr_cons, List.mem_cons]
    constructor
    · intro h
      rintro x (h' | h')
      · subst h'; omega
      · exact (ih.mp (by omega)) x h'
    · intro h
      have h1 := h y (Or.inl rfl)
      have h2 := ih.mpr (fun x hx => h x (Or.inr hx))
      omega

theorem findMostAux_eq (counts : List (Nat × Nat)) :
    ∀ (a : Option Nat) (m : Nat),
      findMostAux counts (a, m) =
        if m < maxCount counts then
          ((counts.find? fun pr => decide (maxCount counts ≤ pr.2)).map
            Prod.fst, maxCount counts)
        else (a, m) := by
  induction counts with
  | nil =>
    intro a m
    simp [findMostAux, maxCount]
  | cons pr rest ih =>
    intro a m
    obtain ⟨k, c⟩ := pr
    have hmc : maxCount ((k, c) :: rest) = max c (maxCount rest) := by
      simp [maxCount]
    rw [findMostAux]
    by_cases h1 : m < c
    · rw [if_pos (by simpa using h1), ih]
      by_cases h2 : c < maxCount rest
      · have hne : ¬ (maxCount ((k, c) :: rest) ≤ c) := by
          rw [hmc]; omega
        rw [if_pos h2, if_pos (by rw [hmc]; omega)]
        rw [List.find?_cons_of_neg _ (by simpa using hne)]
        have : maxCount ((k, c) :: rest) = maxCount rest := by
          rw [hmc]; omega
        rw [this]
      · have hmax : maxCount ((k, c) :: rest) = c := by
          rw [hmc]; omega
        rw [if_neg h2, if_pos (by rw [hmax]; omega)]
        rw [List.find?_cons_of_pos _ (by simp [hmax]), hmax]
        simp
    · rw [if_neg (by simpa using h1), ih]
      by_cases h2 : m < maxCount rest
      · have hmax : maxCount ((k, c) :: rest) = maxCount rest := by
          rw [hmc]; omega
        have hne : ¬ (maxCount ((k, c) :: rest) ≤ c) := by
          rw [hmax]; omega
        rw [if_pos h2, if_pos (by rw [hmax]; omega)]
        rw [List.find?_cons_of_neg _ (by simpa using hne), hmax]
      · rw [if_neg h2, if_neg (by rw [hmc]; omega)]

theorem find?_map_fst (l : List (Nat × Nat)) (p : Nat × Nat → Bool)
    (q : Nat → Bool) (h : ∀ pr ∈ l, p pr = q pr.1) :
    (l.find? p).map Prod.fst = (l.map Prod.fst).find? q := by
  induction l with
  | nil => rfl
  | cons pr rest ih =>
    have hpr := h pr (List.mem_cons_self _ _)
    by_cases hp : p pr = true
    · rw [List.find?_cons_of_pos _ hp, List.map_cons,
        List.find?_cons_of_pos _ (hpr ▸ hp)]
      rfl
    · have hq : ¬ (q pr.1 = true) := fun hqq => hp (hpr ▸ hqq)
      rw [List.find?_cons_of_neg _ hp, List.map_cons,
        List.find?_cons_of_neg _ hq]
      exact ih fun qr hqr => h qr (List.mem_cons_of_mem _ hqr)

theorem find?_congr_mem (l : List Nat) (p q : Nat → Bool)
    (h : ∀ x ∈ l, p x = q x) : l.find? p = l.find? q := by
  induction l with
  | nil => rfl
  | cons y rest ih =>
    have hy := h y (List.mem_cons_self _ _)
    by_cases hp : p y = true
    · rw [List.find?_cons_of_pos _ hp, List.find?_cons_of_pos _ (hy ▸ hp)]
    · have hq : ¬ (q y = true) := fun hqq => hp (hy ▸ hqq)
      rw [List.find?_cons_of_neg _ hp, List.find?_cons_of_neg _ hq]
      exact ih fun x hx => h x (List.mem_cons_of_mem _ hx)

theorem counts_values (votes : List (Nat × Nat)) :
    ∀ pr ∈ buildCounts votes,
      pr.1 ∈ votes.map Prod.snd ∧
      pr.2 = (votes.map Prod.snd).count pr.1 := by
  intro pr hpr
  have hnd : ((buildCounts votes).map Prod.fst).Nodup := by
    rw [buildCounts_keys]
    exact firstOccur_nodup _
  have hget := mapGet_some_of_mem (buildCounts votes) hnd pr hpr
  rw [buildCounts_val] at hget
  by_cases hmem : pr.1 ∈ votes.map Prod.snd
  · rw [if_pos hmem] at hget
    exact ⟨hmem, (Option.some.inj hget).symm⟩
  · rw [if_neg hmem] at hget
    exact absurd hget (by simp)

theorem mostSuspected_eq_brute (votes : List (Nat × Nat)) :
    mostSuspected votes = bruteMostSuspected votes := by
  cases votes with
  | nil => rfl
  | cons v vs =>
    have hkeys : (buildCounts (v :: vs)).map Prod.fst
        = firstOccur ((v :: vs).map Prod.snd) := buildCounts_keys _
    have hvals := counts_values (v :: vs)
    have hv2 : v.2 ∈ (v :: vs).map Prod.snd := by simp
    have hv2' : v.2 ∈ (buildCounts (v :: vs)).map Prod.fst := by
      rw [hkeys, mem_firstOccur]
      exact hv2
    obtain ⟨pr0, hpr0, hpr0e⟩ := List.mem_map.mp hv2'
    have hpos : 1 ≤ pr0.2 := by
      rw [(hvals pr0 hpr0).2]
      exact List.one_le_count_iff.mpr (hvals pr0 hpr0).1
    have hmax : 0 < maxCount (buildCounts (v :: vs)) := by
      have := le_foldr_max ((buildCounts (v :: vs)).map Prod.snd) pr0.2
        (List.mem_map_of_mem Prod.snd hpr0)
      unfold maxCount
      omega
    have h1 : mostSuspected (v :: vs)
        = ((buildCounts (v :: vs)).find? fun pr =>
            decide (maxCount (buildCounts (v :: vs)) ≤ pr.2)).map Prod.fst := by
      unfold mostSuspected
      rw [findMostAux_eq, if_pos hmax]
    have h2 : ((buildCounts (v :: vs)).find? fun pr =>
            decide (maxCount (buildCounts (v :: vs)) ≤ pr.2)).map Prod.fst
        = ((buildCounts (v :: vs)).map Prod.fst).find? fun k =>
            decide (maxCount (buildCounts (v :: vs)) ≤
              ((v :: vs).map Prod.snd).count k) := by
      apply find?_map_fst
      intro pr hpr
      rw [(hvals pr hpr).2]
    have hiff : ∀ k, k ∈ (buildCounts (v :: vs)).map Prod.fst →
        (maxCount (buildCounts (v :: vs)) ≤ ((v :: vs).map Prod.snd).count k ↔
          ∀ t ∈ (buildCounts (v :: vs)).map Prod.fst,
            ((v :: vs).map Prod.snd).count t ≤
              ((v :: vs).map Prod.snd).count k) := by
      intro k _
      constructor
      · intro hle t ht
        obtain ⟨qr, hqr, hqre⟩ := List.mem_map.mp ht
        have hq := (hvals qr hqr).2
        have hub : qr.2 ≤ maxCount (buildCounts (v :: vs)) :=
          le_foldr_max _ _ (List.mem_map_of_mem Prod.snd hqr)
        rw [← hqre, ← hq]
        omega
      · intro hall
        unfold maxCount
        rw [foldr_max_le_iff]
        intro x hx
        obtain ⟨qr, hqr, hqre⟩ := List.mem_map.mp hx
        have hk := hall qr.1 (List.mem_map_of_mem Prod.fst hqr)
        rw [← hqre, (hvals qr hqr).2]
        exact hk
    have h3 : (((buildCounts (v :: vs)).map Prod.fst).find? fun k =>
            decide (maxCount (buildCounts (v :: vs)) ≤
              ((v :: vs).map Prod.snd).count k))
        = ((buildCounts (v :: vs)).map Prod.fst).find? fun s =>
            ((buildCounts (v :: vs)).map Prod.fst).all fun t =>
              decide (((v :: vs).map Prod.snd).count t ≤
                ((v :: vs).map Prod.snd).count s) := by
      apply find?_congr_mem
      intro k hk
      rw [Bool.eq_iff_iff]
      simp only [decide_eq_true_eq, List.all_eq_true]
      exact hiff k hk
    rw [h1, h2, h3, hkeys]
    rfl

/-- C9: in the suspicion vote tally, the interface never offers a voter as
their own suspect, so a self-vote is impossible and records nothing; after N
unique voters each cast one valid vote, exactly N votes are recorded; and
`analyzeVotes`'s most-suspected aggregate equals, on every vote list, the
brute-force spec-side count with the first-index-reached-in-voter-order
tie-break. -/
theorem C9_suspicion_tally (n : Nat) (votes pairs : List (Nat × Nat))
    (voter : Nat)
    (hnodup : (pairs.map Prod.fst).Nodup)
    (hvalid : ∀ pr ∈ pairs, pr.2 ∈ voteOptions n pr.1) :
    voter ∉ voteOptions n voter ∧
    castVoteUI n votes voter voter = votes ∧
    (castAll n pairs).length = pairs.length ∧
    mostSuspected votes = bruteMostSuspected votes := by
  have hself : voter ∉ voteOptions n voter := by
    intro h
    simp [voteOptions] at h
  refine ⟨hself, ?_, ?_, mostSuspected_eq_brute votes⟩
  · simp [castVoteUI, hself]
  · have h := castAll_aux_length n pairs []
      hvalid (by intro pr _; simp) hnodup
    simpa [castAll] using h.1

/-- Witness for C9: four voters each cast one vote among four players;
suspect 1 receives three votes and is the most-suspected for both the code
scan and the brute-force count. -/
theorem C9_suspicion_tally_witness :
    (0 : Nat) ∉ voteOptions 4 0 ∧
    castVoteUI 4 [(3, 1)] 0 0 = [(3, 1)] ∧
    (castAll 4 [(0, 1), (1, 0), (2, 1), (3, 1)]).length = 4 ∧
    mostSuspected [(0, 1), (1, 0), (2, 1), (3, 1)] =
      bruteMostSuspected [(0, 1), (1, 0), (2, 1), (3, 1)] := by
  have h := C9_suspicion_tally 4 [(3, 1)] [(0, 1), (1, 0), (2, 1), (3, 1)] 0
    (by decide) (by decide)
  have h' := C9_suspicion_tally 4 [(0, 1), (1, 0), (2, 1), (3, 1)]
    [(0, 1), (1, 0), (2, 1), (3, 1)] 0 (by decide) (by decide)
  exact ⟨h.1, h.2.1, h.2.2.1, h'.2.2.2⟩

/-! ### Lemmas for role assignment and the shuffle -/

theorem count_set_aux {α : Type} [DecidableEq α] :
    ∀ (l : List α) (i : Nat) (x b a : α), l[i]? = some x →
      (l.set i b).count a + (if x = a then 1 else 0)
        = l.count a + (if b = a then 1 else 0) := by
  intro l
  induction l with
  | nil => intro i x b a h; simp at h
  | cons hd tl ih =>
    intro i x b a h
    cases i with
    | zero =>
      simp only [List.getElem?_cons_zero, Option.some.injEq] at h
      subst h
      simp only [List.set_cons_zero, List.count_cons, beq_iff_eq]
      split_ifs <;> omega
    | succ m =>
      simp only [List.getElem?_cons_succ] at h
      simp only [List.set_cons_succ, List.count_cons, beq_iff_eq]
      have hih := ih m x b a h
      split_ifs at hih ⊢ <;> omega

theorem count_listSwap {α : Type} [DecidableEq α] (l : List α) (i j : Nat)
    (a : α) : (listSwap l i j).count a = l.count a := by
  rcases hi : l[i]? with _ | x <;> rcases hj : l[j]? with _ | y <;>
    simp only [listSwap, hi, hj]
  have hjlen : j < l.length := (List.getElem?_eq_some_iff.mp hj).1
  have hij : (l.set i y)[j]? = some y := by
    by_cases hij' : i = j
    · subst hij'
      rw [List.getElem?_set_self (by simpa using hjlen)]
    · rw [List.getElem?_set_ne hij']
      exact hj
  have h1 := count_set_aux l i x y a hi
  have h2 := count_set_aux (l.set i y) j y x a hij
  split_ifs at h1 h2 <;> omega

theorem listSwap_perm {α : Type} [DecidableEq α] (l : List α) (i j : Nat) :
    (listSwap l i j).Perm l :=
  List.perm_iff_count.mpr fun a => count_listSwap l i j a

theorem shuffleLoop_perm {α : Type} [DecidableEq α] :
    ∀ (i : Nat) (js : List Nat) (l : List α), (shuffleLoop l i js).Perm l := by
  intro i
  induction i with
  | zero => intro js l; exact List.Perm.refl l
  | succ k ih =>
    intro js l
    cases js with
    | nil => exact List.Perm.refl l
    | cons j rest =>
      exact (ih rest (listSwap l (k + 1) j)).trans (listSwap_perm l (k + 1) j)

theorem shuffleArray_perm {α : Type} [DecidableEq α] (l : List α)
    (js : List Nat) : (shuffleArray l js).Perm l :=
  shuffleLoop_perm (l.length - 1) js l

theorem selectBadLoop_nodup (bc : Nat) :
    ∀ (draws acc : List Nat), acc.Nodup → (selectBadLoop bc draws acc).Nodup := by
  intro draws
  induction draws with
  | nil => intro acc h; exact h
  | cons d rest ih =>
    intro acc h
    by_cases hlen : acc.length < bc
    · by_cases hmem : d ∈ acc
      · simp only [selectBadLoop, if_pos hlen, if_pos hmem]
        exact ih acc h
      · simp only [selectBadLoop, if_pos hlen, if_neg hmem]
        refine ih _ ?_
        simp [List.nodup_append, h, hmem]
    · simp only [selectBadLoop, if_neg hlen]
      exact h

theorem selectBadLoop_lt (bc n : Nat) :
    ∀ (draws acc : List Nat), (∀ d ∈ draws, d < n) → (∀ x ∈ acc, x < n) →
      ∀ x ∈ selectBadLoop bc draws acc, x < n := by
  intro draws
  induction draws with
  | nil => intro acc _ hacc; exact hacc
  | cons d rest ih =>
    intro acc hdr hacc
    have hd : d < n := hdr d (List.mem_cons_self _ _)
    have hdr' : ∀ x ∈ rest, x < n := fun x hx =>
      hdr x (List.mem_cons_of_mem _ hx)
    by_cases hlen : acc.length < bc
    · by_cases hmem : d ∈ acc
      · simp only [selectBadLoop, if_pos hlen, if_pos hmem]
        exact ih acc hdr' hacc
      · simp only [selectBadLoop, if_pos hlen, if_neg hmem]
        refine ih _ hdr' ?_
        intro x hx
        rcases List.mem_append.mp hx with h | h
        · exact hacc x h
        · rw [List.mem_singleton.mp h]
          exact hd
    · simp only [selectBadLoop, if_neg hlen]
      exact hacc

theorem selectBadIndices_nodup (bc : Nat) (draws : List Nat) :
    (selectBadIndices bc draws).Nodup :=
  selectBadLoop_nodup bc draws [] List.nodup_nil

theorem selectBadIndices_lt (bc n : Nat) (draws : List Nat)
    (h : ∀ d ∈ draws, d < n) : ∀ x ∈ selectBadIndices bc draws, x < n :=
  selectBadLoop_lt bc n draws [] h (by intro x hx; exact absurd hx (List.not_mem_nil x))

theorem countP_mem_nodup :
    ∀ (l bad : List Nat), bad.Nodup → (∀ b ∈ bad, b ∈ l) → l.Nodup →
      (l.countP fun i => decide (i ∈ bad)) = bad.length := by
  intro l
  induction l with
  | nil =>
    intro bad hnd hsub _
    cases bad with
    | nil => rfl
    | cons b bs => exact absurd (hsub b (List.mem_cons_self _ _)) (List.not_mem_nil b)
  | cons x xs ih =>
    intro bad hnd hsub hlnd
    simp only [List.nodup_cons] at hlnd
    by_cases hx : x ∈ bad
    · rw [List.countP_cons_of_pos _ _ (by simpa using hx)]
      have herase_nd : (bad.erase x).Nodup := hnd.erase x
      have herase_sub : ∀ b ∈ bad.erase x, b ∈ xs := by
        intro b hb
        have hbmem : b ∈ bad := List.mem_of_mem_erase hb
        have hbne : b ≠ x := by
          intro he
          subst he
          exact (List.Nodup.not_mem_erase hnd) hb
        rcases List.mem_cons.mp (hsub b hbmem) with h | h
        · exact absurd h hbne
        · exact h
      have hcnt : (xs.countP fun i => decide (i ∈ bad))
          = (xs.countP fun i => decide (i ∈ bad.erase x)) := by
        apply List.countP_congr
        intro i hi
        have hne : i ≠ x := fun he => hlnd.1 (he ▸ hi)
        simp only [decide_eq_true_eq]
        exact (List.mem_erase_of_ne hne).symm
      rw [hcnt, ih (bad.erase x) herase_nd herase_sub hlnd.2,
        List.length_erase_of_mem hx]
      have : 0 < bad.length := List.length_pos.mpr
        (fun he => by subst he; exact absurd hx (List.not_mem_nil x))
      omega
    · rw [List.countP_cons_of_neg _ _ (by simpa using hx)]
      have hsub' : ∀ b ∈ bad, b ∈ xs := by
        intro b hb
        rcases List.mem_cons.mp (hsub b hb) with h | h
        · exact absurd (h ▸ hb) hx
        · exact h
      exact ih bad hnd hsub' hlnd.2

theorem pre_noPartner (n : Nat) (bad : List Nat) (know : Bool)
    (hcond : ¬ (know = true ∧ bad.length = 2)) :
    assignPartners know bad (assignBad bad (mkPlayers n))
      = (List.range n).map fun i =>
          ({ index := i, role := if i ∈ bad then Role.Bad else Role.Good,
             partnerId := none } : RPlayer) := by
  rw [assignPartners, if_neg hcond]
  simp only [mkPlayers, assignBad, List.map_map]
  apply List.map_congr_left
  intro i _
  by_cases h : i ∈ bad <;> simp [h, Function.comp]

theorem pre_partner (n b0 b1 : Nat) (hne : b0 ≠ b1) :
    assignPartners true [b0, b1] (assignBad [b0, b1] (mkPlayers n))
      = (List.range n).map fun i =>
          ({ index := i,
             role := if i ∈ [b0, b1] then Role.Bad else Role.Good,
             partnerId := if i = b0 then some b1
               else if i = b1 then some b0 else none } : RPlayer) := by
  rw [assignPartners, if_pos (by simp)]
  simp only [mkPlayers, assignBad, List.map_map, List.getD]
  apply List.map_congr_left
  intro i _
  by_cases h0 : i = b0
  · subst h0
    simp [Function.comp]
  · by_cases h1 : i = b1
    · subst h1
      simp [Function.comp, h0, hne.symm]
    · simp [Function.comp, h0, h1]

theorem roster_counts (n : Nat) (bad : List Nat) (g : Nat → Option Nat)
    (hnd : bad.Nodup) (hlt : ∀ x ∈ bad, x < n) :
    ((List.range n).map fun i =>
      ({ index := i, role := if i ∈ bad then Role.Bad else Role.Good,
         partnerId := g i } : RPlayer)).length = n ∧
    ((List.range n).map fun i =>
      ({ index := i, role := if i ∈ bad then Role.Bad else Role.Good,
         partnerId := g i } : RPlayer)).countP (fun p => p.role == Role.Bad)
      = bad.length ∧
    ((List.range n).map fun i =>
      ({ index := i, role := if i ∈ bad then Role.Bad else Role.Good,
         partnerId := g i } : RPlayer)).countP (fun p => p.role == Role.Good)
      = n - bad.length := by
  have hbadc : ((List.range n).map fun i =>
      ({ index := i, role := if i ∈ bad then Role.Bad else Role.Good,
         partnerId := g i } : RPlayer)).countP (fun p => p.role == Role.Bad)
      = bad.length := by
    rw [List.countP_map]
    have hcg : ((List.range n).countP
        ((fun p => p.role == Role.Bad) ∘ fun i =>
          ({ index := i, role := if i ∈ bad then Role.Bad else Role.Good,
             partnerId := g i } : RPlayer)))
        = (List.range n).countP fun i => decide (i ∈ bad) := by
      apply List.countP_congr
      intro i _
      by_cases h : i ∈ bad <;> simp [h, Function.comp]
    rw [hcg]
    exact countP_mem_nodup (List.range n) bad hnd
      (fun b hb => List.mem_range.mpr (hlt b hb)) (List.nodup_range n)
  have hlen : ((List.range n).map fun i =>
      ({ index := i, role := if i ∈ bad then Role.Bad else Role.Good,
         partnerId := g i } : RPlayer)).length = n := by
    simp
  have hsum := List.length_eq_countP_add_countP
    (p := fun p : RPlayer => p.role == Role.Bad)
    ((List.range n).map fun i =>
      ({ index := i, role := if i ∈ bad then Role.Bad else Role.Good,
         partnerId := g i } : RPlayer))
  have hgood : ((List.range n).map fun i =>
      ({ index := i, role := if i ∈ bad then Role.Bad else Role.Good,
         partnerId := g i } : RPlayer)).countP (fun p => p.role == Role.Good)
      = ((List.range n).map fun i =>
      ({ index := i, role := if i ∈ bad then Role.Bad else Role.Good,
         partnerId := g i } : RPlayer)).countP
        (fun p => ¬(p.role == Role.Bad)) := by
    apply List.countP_congr
    intro p _
    cases hp : p.role <;> simp [hp]
  refine ⟨hlen, hbadc, ?_⟩
  rw [hgood]
  rw [hlen, hbadc] at hsum
  omega

theorem roster_partner_pair (n b0 b1 : Nat) (hne : b0 ≠ b1)
    (h0 : b0 < n) (h1 : b1 < n) :
    ∃ p ∈ ((List.range n).map fun i =>
        ({ index := i,
           role := if i ∈ [b0, b1] then Role.Bad else Role.Good,
           partnerId := if i = b0 then some b1
             else if i = b1 then some b0 else none } : RPlayer)),
    ∃ q ∈ ((List.range n).map fun i =>
        ({ index := i,
           role := if i ∈ [b0, b1] then Role.Bad else Role.Good,
           partnerId := if i = b0 then some b1
             else if i = b1 then some b0 else none } : RPlayer)),
      p.role = Role.Bad ∧ q.role = Role.Bad ∧ p.index ≠ q.index ∧
      p.partnerId = some q.index ∧ q.partnerId = some p.index ∧
      ∀ r ∈ ((List.range n).map fun i =>
          ({ index := i,
             role := if i ∈ [b0, b1] then Role.Bad else Role.Good,
             partnerId := if i = b0 then some b1
               else if i = b1 then some b0 else none } : RPlayer)),
        r.partnerId ≠ none → (r = p ∨ r = q) := by
  refine ⟨⟨b0, Role.Bad, some b1⟩, ?_, ⟨b1, Role.Bad, some b0⟩, ?_,
    rfl, rfl, hne, rfl, rfl, ?_⟩
  · refine List.mem_map.mpr ⟨b0, List.mem_range.mpr h0, ?_⟩
    simp
  · refine List.mem_map.mpr ⟨b1, List.mem_range.mpr h1, ?_⟩
    simp [hne.symm]
  · intro r hr hrp
    obtain ⟨i, _, hi⟩ := List.mem_map.mp hr
    by_cases hb0 : i = b0
    · subst hb0
      left
      rw [← hi]
      simp
    · by_cases hb1 : i = b1
      · subst hb1
        right
        rw [← hi]
        simp [hb0, hne.symm]
      · exfalso
        apply hrp
        rw [← hi]
        simp [hb0, hb1]

theorem roster_no_partner (n : Nat) (bad : List Nat) :
    ∀ r ∈ ((List.range n).map fun i =>
        ({ index := i, role := if i ∈ bad then Role.Bad else Role.Good,
           partnerId := none } : RPlayer)),
      r.partnerId = none := by
  intro r hr
  obtain ⟨i, _, hi⟩ := List.mem_map.mp hr
  rw [← hi]

theorem C6_case_noknow (n : Nat) (bad js : List Nat)
    (hnd : bad.Nodup) (hlt : ∀ x ∈ bad, x < n) :
    (shuffleArray (assignPartners false bad (assignBad bad (mkPlayers n)))
      js).length = n ∧
    (shuffleArray (assignPartners false bad (assignBad bad (mkPlayers n)))
      js).countP (fun p => p.role == Role.Bad) = bad.length ∧
    (shuffleArray (assignPartners false bad (assignBad bad (mkPlayers n)))
      js).countP (fun p => p.role == Role.Good) = n - bad.length ∧
    ∀ r ∈ shuffleArray (assignPartners false bad (assignBad bad (mkPlayers n)))
      js, r.partnerId = none := by
  have hL := pre_noPartner n bad false (by simp)
  rw [hL]
  have hperm := shuffleArray_perm ((List.range n).map fun i =>
    ({ index := i, role := if i ∈ bad then Role.Bad else Role.Good,
       partnerId := none } : RPlayer)) js
  have hro := roster_counts n bad (fun _ => none) hnd hlt
  exact ⟨hperm.length_eq.trans hro.1,
    (hperm.countP_eq _).trans hro.2.1,
    (hperm.countP_eq _).trans hro.2.2,
    fun r hr => roster_no_partner n bad r (hperm.mem_iff.mp hr)⟩

theorem C6_case_know (n b0 b1 : Nat) (js : List Nat) (hne : b0 ≠ b1)
    (h0 : b0 < n) (h1 : b1 < n) :
    (shuffleArray (assignPartners true [b0, b1]
      (assignBad [b0, b1] (mkPlayers n))) js).length = n ∧
    (shuffleArray (assignPartners true [b0, b1]
      (assignBad [b0, b1] (mkPlayers n))) js).countP
      (fun p => p.role == Role.Bad) = 2 ∧
    (shuffleArray (assignPartners true [b0, b1]
      (assignBad [b0, b1] (mkPlayers n))) js).countP
      (fun p => p.role == Role.Good) = n - 2 ∧
    ∃ p ∈ shuffleArray (assignPartners true [b0, b1]
        (assignBad [b0, b1] (mkPlayers n))) js,
    ∃ q ∈ shuffleArray (assignPartners true [b0, b1]
        (assignBad [b0, b1] (mkPlayers n))) js,
      p.role = Role.Bad ∧ q.role = Role.Bad ∧ p.index ≠ q.index ∧
      p.partnerId = some q.index ∧ q.partnerId = some p.index ∧
      ∀ r ∈ shuffleArray (assignPartners true [b0, b1]
          (assignBad [b0, b1] (mkPlayers n))) js,
        r.partnerId ≠ none → (r = p ∨ r = q) := by
  have hL := pre_partner n b0 b1 hne
  rw [hL]
  have hperm := shuffleArray_perm ((List.range n).map fun i =>
    ({ index := i,
       role := if i ∈ [b0, b1] then Role.Bad else Role.Good,
       partnerId := if i = b0 then some b1
         else if i = b1 then some b0 else none } : RPlayer)) js
  have hro := roster_counts n [b0, b1]
    (fun i => if i = b0 then some b1 else if i = b1 then some b0 else none)
    (by simp [hne]) (by
      intro x hx
      simp only [List.mem_cons, List.mem_singleton, List.not_mem_nil,
        or_false] at hx
      rcases hx with rfl | rfl <;> assumption)
  obtain ⟨p, hp, q, hq, hprops⟩ := roster_partner_pair n b0 b1 hne h0 h1
  refine ⟨hperm.length_eq.trans hro.1,
    (hperm.countP_eq _).trans hro.2.1,
    (hperm.countP_eq _).trans hro.2.2,
    p, hperm.mem_iff.mpr hp, q, hperm.mem_iff.mpr hq,
    hprops.1, hprops.2.1, hprops.2.2.1, hprops.2.2.2.1, hprops.2.2.2.2.1, ?_⟩
  intro r hr hrne
  exact hprops.2.2.2.2.2 r (hperm.mem_iff.mp hr) hrne

/-- C7: role assignment with a roster of fewer than 3 or more than 8 players
fails with the invalid-player-count error, and since `startRoleAssignment`
resets the player list before `generatePlayerRoles` throws, no player is
given a role; for rosters of size 3 to 8 the function succeeds — there is no
other error path. -/
theorem C7_invalid_player_count (n : Nat) (draws js : List Nat) :
    ((n < 3 ∨ 8 < n) →
      generatePlayerRoles n draws js
        = .error "Player count must be between 3 and 8" ∧
      startRoleAssignmentPlayers n draws js = []) ∧
    (3 ≤ n → n ≤ 8 → ∃ ps, generatePlayerRoles n draws js = .ok ps) := by
  constructor
  · intro h
    have hb : (decide (n < 3) || decide (8 < n)) = true := by
      rcases h with h | h <;> simp [h]
    have herr : generatePlayerRoles n draws js
        = .error "Player count must be between 3 and 8" := by
      rw [generatePlayerRoles]
      simp [hb]
    exact ⟨herr, by rw [startRoleAssignmentPlayers, herr]⟩
  · intro h3 h8
    have hb : (decide (n < 3) || decide (8 < n)) = false := by
      simp only [Bool.or_eq_false_iff, decide_eq_false_iff_not, not_lt]
      omega
    refine ⟨shuffleArray (assignPartners (roleDistribution n).2
      (selectBadIndices (roleDistribution n).1 draws)
      (assignBad (selectBadIndices (roleDistribution n).1 draws)
        (mkPlayers n))) js, ?_⟩
    rw [generatePlayerRoles]
    simp [hb]

/-- Witness for C7: 9 players fail with the invalid-player-count error and
leave the player list empty; 3 players succeed. -/
theorem C7_invalid_player_count_witness :
    (generatePlayerRoles 9 [] []
        = .error "Player count must be between 3 and 8" ∧
      startRoleAssignmentPlayers 9 [] [] = []) ∧
    (∃ ps, generatePlayerRoles 3 [0] [] = .ok ps) :=
  ⟨(C7_invalid_player_count 9 [] []).1 (Or.inr (by decide)),
   (C7_invalid_player_count 3 [0] []).2 (by decide) (by decide)⟩

/-- C6: for every player count n in 3..8 (given random draws below n that let
the rejection-sampling loop complete), role assignment marks exactly
`badCount` players Bad per the table 3→1, 4→1, 5→2, 6→2, 7→2, 8→3 and all
remaining players Good; partner links exist iff n ∈ {6,7}, and when created
they form exactly one mutually symmetric pair linking the two Bad players to
each other. -/
theorem C6_role_assignment (n : Nat) (draws js : List Nat)
    (h3 : 3 ≤ n) (h8 : n ≤ 8)
    (hdraws : ∀ d ∈ draws, d < n)
    (hsel : (selectBadIndices (roleDistribution n).1 draws).length
      = (roleDistribution n).1) :
    ∀ ps, generatePlayerRoles n draws js = .ok ps →
      ps.length = n ∧
      ps.countP (fun p => p.role == Role.Bad) = (roleDistribution n).1 ∧
      ps.countP (fun p => p.role == Role.Good) = n - (roleDistribution n).1 ∧
      (roleDistribution 3 = (1, false) ∧ roleDistribution 4 = (1, false) ∧
       roleDistribution 5 = (2, false) ∧ roleDistribution 6 = (2, true) ∧
       roleDistribution 7 = (2, true) ∧ roleDistribution 8 = (3, false)) ∧
      ((∃ p ∈ ps, p.partnerId ≠ none) ↔ (n = 6 ∨ n = 7)) ∧
      ((n = 6 ∨ n = 7) →
        ∃ p ∈ ps, ∃ q ∈ ps,
          p.role = Role.Bad ∧ q.role = Role.Bad ∧ p.index ≠ q.index ∧
          p.partnerId = some q.index ∧ q.partnerId = some p.index ∧
          ∀ r ∈ ps, r.partnerId ≠ none → (r = p ∨ r = q)) := by
  intro ps hps
  have hcnd : (decide (n < 3) || decide (8 < n)) = false := by
    simp only [Bool.or_eq_false_iff, decide_eq_false_iff_not, not_lt]
    omega
  rw [generatePlayerRoles] at hps
  rw [hcnd] at hps
  simp only [Bool.false_eq_true, if_false, Except.ok.injEq] at hps
  subst hps
  have hnd := selectBadIndices_nodup (roleDistribution n).1 draws
  have hlt := selectBadIndices_lt (roleDistribution n).1 n draws hdraws
  interval_cases n
  · -- 3 players
    simp only [roleDistribution] at hsel hnd hlt ⊢
    have hcase := C6_case_noknow 3 (selectBadIndices 1 draws) js hnd hlt
    refine ⟨hcase.1, hcase.2.1.trans hsel, hcase.2.2.1.trans (by rw [hsel]),
      by decide, ?_, ?_⟩
    · constructor
      · rintro ⟨p, hp, hpne⟩
        exact absurd (hcase.2.2.2 p hp) hpne
      · rintro (h | h) <;> exact absurd h (by decide)
    · rintro (h | h) <;> exact absurd h (by decide)
  · -- 4 players
    simp only [roleDistribution] at hsel hnd hlt ⊢
    have hcase := C6_case_noknow 4 (selectBadIndices 1 draws) js hnd hlt
    refine ⟨hcase.1, hcase.2.1.trans hsel, hcase.2.2.1.trans (by rw [hsel]),
      by decide, ?_, ?_⟩
    · constructor
      · rintro ⟨p, hp, hpne⟩
        exact absurd (hcase.2.2.2 p hp) hpne
      · rintro (h | h) <;> exact absurd h (by decide)
    · rintro (h | h) <;> exact absurd h (by decide)
  · -- 5 players
    simp only [roleDistribution] at hsel hnd hlt ⊢
    have hcase := C6_case_noknow 5 (selectBadIndices 2 draws) js hnd hlt
    refine ⟨hcase.1, hcase.2.1.trans hsel, hcase.2.2.1.trans (by rw [hsel]),
      by decide, ?_, ?_⟩
    · constructor
      · rintro ⟨p, hp, hpne⟩
        exact absurd (hcase.2.2.2 p hp) hpne
      · rintro (h | h) <;> exact absurd h (by decide)
    · rintro (h | h) <;> exact absurd h (by decide)
  · -- 6 players
    simp only [roleDistribution] at hsel hnd hlt ⊢
    rcases hbadeq : selectBadIndices 2 draws with _ | ⟨b0, bad1⟩
    · rw [hbadeq] at hsel
      simp at hsel
    rcases bad1 with _ | ⟨b1, bad2⟩
    · rw [hbadeq] at hsel
      simp at hsel
    rcases bad2 with _ | ⟨b2, bad3⟩
    swap
    · rw [hbadeq] at hsel
      simp at hsel
    rw [hbadeq] at hnd hlt
    have hne : b0 ≠ b1 := by
      intro he
      subst he
      simp at hnd
    have h0 : b0 < 6 := hlt b0 (by simp)
    have h1 : b1 < 6 := hlt b1 (by simp)
    obtain ⟨hlen, hbadc, hgoodc, p, hp, q, hq, hrest⟩ :=
      C6_case_know 6 b0 b1 js hne h0 h1
    refine ⟨hlen, hbadc, hgoodc, by simp, ?_, ?_⟩
    · constructor
      · intro _
        exact Or.inl trivial
      · intro _
        refine ⟨p, hp, ?_⟩
        rw [hrest.2.2.2.1]
        simp
    · intro _
      exact ⟨p, hp, q, hq, hrest⟩
  · -- 7 players
    simp only [roleDistribution] at hsel hnd hlt ⊢
    rcases hbadeq : selectBadIndices 2 draws with _ | ⟨b0, bad1⟩
    · rw [hbadeq] at hsel
      simp at hsel
    rcases bad1 with _ | ⟨b1, bad2⟩
    · rw [hbadeq] at hsel
      simp at hsel
    rcases bad2 with _ | ⟨b2, bad3⟩
    swap
    · rw [hbadeq] at hsel
      simp at hsel
    rw [hbadeq] at hnd hlt
    have hne : b0 ≠ b1 := by
      intro he
      subst he
      simp at hnd
    have h0 : b0 < 7 := hlt b0 (by simp)
    have h1 : b1 < 7 := hlt b1 (by simp)
    obtain ⟨hlen, hbadc, hgoodc, p, hp, q, hq, hrest⟩ :=
      C6_case_know 7 b0 b1 js hne h0 h1
    refine ⟨hlen, hbadc, hgoodc, by simp, ?_, ?_⟩
    · constructor
      · intro _
        exact Or.inr trivial
      · intro _
        refine ⟨p, hp, ?_⟩
        rw [hrest.2.2.2.1]
        simp
    · intro _
      exact ⟨p, hp, q, hq, hrest⟩
  · -- 8 players
    simp only [roleDistribution] at hsel hnd hlt ⊢
    have hcase := C6_case_noknow 8 (selectBadIndices 3 draws) js hnd hlt
    refine ⟨hcase.1, hcase.2.1.trans hsel, hcase.2.2.1.trans (by rw [hsel]),
      by decide, ?_, ?_⟩
    · constructor
      · rintro ⟨p, hp, hpne⟩
        exact absurd (hcase.2.2.2 p hp) hpne
      · rintro (h | h) <;> exact absurd h (by decide)
    · rintro (h | h) <;> exact absurd h (by decide)

/-- Witness for C6: six players with bad draws 0 and 1 and no shuffle swaps
produce exactly 2 Bad players. -/
theorem C6_role_assignment_witness :
    (([⟨0, .Bad, some 1⟩, ⟨1, .Bad, some 0⟩, ⟨2, .Good, none⟩,
       ⟨3, .Good, none⟩, ⟨4, .Good, none⟩, ⟨5, .Good, none⟩] :
      List RPlayer).countP (fun p => p.role == Role.Bad)) = 2 :=
  ((C6_role_assignment 6 [0, 1] [] (by decide) (by decide) (by decide)
    (by decide)) _ (by rfl)).2.1

end SpyAcademy
